import Mathlib

/-!
Verification development for the anonymous-chat client whose core lives in
`src/src/app/page.tsx`.  The pure parts of the source (base64, envelope
construction, JSON wire format, room normalization, the session state
transitions of join / send / typing / presence) are embedded as executable
Lean definitions; the platform primitives the source calls
(`crypto.subtle` PBKDF2 / AES-GCM, `crypto.getRandomValues`,
`TextEncoder` / `TextDecoder`, `btoa` / `atob`, `JSON.parse` /
`JSON.stringify`) are modelled faithfully at the byte level, with the two
cryptographic primitives idealized in the standard way: PBKDF2 is an
injective map from (password, salt, parameters) to keys, and AES-GCM is an
authenticated encryption whose decryption succeeds exactly on the matching
(key, iv) pair and then returns the original plaintext bytes.
-/

namespace ChatAnonima

/-! ### Base64, modelling `btoa` / `atob` as used by `toB64` / `fromB64`
(page.tsx lines 48-59).  `toB64` turns a byte buffer into a binary string
and calls `btoa`; `fromB64` calls `atob` and reads the char codes back.
`atob` throws on malformed input, which we model with `Option`. -/

def b64Chars : List Char :=
  ['A','B','C','D','E','F','G','H','I','J','K','L','M',
   'N','O','P','Q','R','S','T','U','V','W','X','Y','Z',
   'a','b','c','d','e','f','g','h','i','j','k','l','m',
   'n','o','p','q','r','s','t','u','v','w','x','y','z',
   '0','1','2','3','4','5','6','7','8','9','+','/']

def b64Char (i : Nat) : Char := b64Chars.getD i 'A'

def b64Index (c : Char) : Option Nat := List.findIdx? (fun d => d = c) b64Chars

/-- Base64-encode a byte list in 3-byte groups, with `=` padding,
exactly as `btoa` does on the binary string built by `toB64`. -/
def b64EncodeChunks : List Nat → List Char
  | [] => []
  | [b1] => [b64Char (b1 / 4), b64Char (b1 % 4 * 16), '=', '=']
  | [b1, b2] =>
      [b64Char (b1 / 4), b64Char (b1 % 4 * 16 + b2 / 16), b64Char (b2 % 16 * 4), '=']
  | b1 :: b2 :: b3 :: rest =>
      b64Char (b1 / 4) :: b64Char (b1 % 4 * 16 + b2 / 16) ::
      b64Char (b2 % 16 * 4 + b3 / 64) :: b64Char (b3 % 64) :: b64EncodeChunks rest

/-- Base64-decode in 4-character groups; `none` models `atob` throwing
`InvalidCharacterError` on malformed input. -/
def b64DecodeChunks : List Char → Option (List Nat)
  | [] => some []
  | c1 :: c2 :: c3 :: c4 :: rest =>
      if c3 = '=' then
        if c4 = '=' ∧ rest = [] then
          match b64Index c1, b64Index c2 with
          | some i1, some i2 => some [i1 * 4 + i2 / 16]
          | _, _ => none
        else none
      else if c4 = '=' then
        if rest = [] then
          match b64Index c1, b64Index c2, b64Index c3 with
          | some i1, some i2, some i3 =>
              some [i1 * 4 + i2 / 16, i2 % 16 * 16 + i3 / 4]
          | _, _, _ => none
        else none
      else
        match b64Index c1, b64Index c2, b64Index c3, b64Index c4,
              b64DecodeChunks rest with
        | some i1, some i2, some i3, some i4, some tail =>
            some ((i1 * 4 + i2 / 16) :: (i2 % 16 * 16 + i3 / 4) :: (i3 % 4 * 64 + i4) :: tail)
        | _, _, _, _, _ => none
  | _ => none

/-- Model of `toB64`, page.tsx lines 48-53. -/
def toB64 (bs : List Nat) : String := String.mk (b64EncodeChunks bs)

/-- Model of `fromB64`, page.tsx lines 54-59 (`none` = `atob` threw). -/
def fromB64 (s : String) : Option (List Nat) := b64DecodeChunks s.data

lemma b64Index_b64Char {i : Nat} (h : i < 64) : b64Index (b64Char i) = some i := by
  have key : ∀ j : Fin 64, b64Index (b64Char j.val) = some j.val := by decide
  exact key ⟨i, h⟩

lemma b64Char_ne_pad {i : Nat} (h : i < 64) : b64Char i ≠ '=' := by
  have key : ∀ j : Fin 64, b64Char j.val ≠ '=' := by decide
  exact key ⟨i, h⟩

theorem b64DecodeChunks_encode (bs : List Nat) (hb : ∀ b ∈ bs, b < 256) :
    b64DecodeChunks (b64EncodeChunks bs) = some bs := by
  induction bs using b64EncodeChunks.induct with
  | case1 => rfl
  | case2 b1 =>
      have h1 : b1 < 256 := hb b1 (by simp)
      rw [b64EncodeChunks]
      rw [b64DecodeChunks]
      rw [b64Index_b64Char (by omega), b64Index_b64Char (by omega)]
      simp only [if_pos rfl, and_self, if_pos]
      congr 1
      have : b1 / 4 * 4 + b1 % 4 * 16 / 16 = b1 := by omega
      rw [this]
  | case3 b1 b2 =>
      have h1 : b1 < 256 := hb b1 (by simp)
      have h2 : b2 < 256 := hb b2 (by simp)
      rw [b64EncodeChunks]
      rw [b64DecodeChunks]
      rw [if_neg (b64Char_ne_pad (by omega))]
      rw [b64Index_b64Char (by omega), b64Index_b64Char (by omega),
        b64Index_b64Char (by omega)]
      simp
      omega
  | case4 b1 b2 b3 rest ih =>
      have h1 : b1 < 256 := hb b1 (by simp)
      have h2 : b2 < 256 := hb b2 (by simp)
      have h3 : b3 < 256 := hb b3 (by simp)
      have hrest : ∀ b ∈ rest, b < 256 := fun b hbm => hb b (by simp [hbm])
      rw [b64EncodeChunks]
      rw [b64DecodeChunks]
      rw [if_neg (b64Char_ne_pad (by omega))]
      rw [if_neg (b64Char_ne_pad (by omega))]
      rw [b64Index_b64Char (by omega), b64Index_b64Char (by omega),
        b64Index_b64Char (by omega), b64Index_b64Char (by omega), ih hrest]
      simp
      omega

theorem fromB64_toB64 (bs : List Nat) (hb : ∀ b ∈ bs, b < 256) :
    fromB64 (toB64 bs) = some bs :=
  b64DecodeChunks_encode bs hb


/-! ### UTF-8, modelling `TextEncoder.encode` / `TextDecoder.decode`
(page.tsx lines 46-47, used in `deriveKey`, `encryptText`,
`decryptTextFromEnvelope`). -/

/-- The UTF-8 bytes of one character. -/
def utf8EncodeChar (c : Char) : List Nat :=
  if c.toNat < 128 then [c.toNat]
  else if c.toNat < 2048 then [192 + c.toNat / 64, 128 + c.toNat % 64]
  else if c.toNat < 65536 then
    [224 + c.toNat / 4096, 128 + c.toNat / 64 % 64, 128 + c.toNat % 64]
  else
    [240 + c.toNat / 262144, 128 + c.toNat / 4096 % 64,
     128 + c.toNat / 64 % 64, 128 + c.toNat % 64]

/-- Model of `textEncoder.encode`. -/
def utf8Encode (s : String) : List Nat := s.data.flatMap utf8EncodeChar

/-! UTF-8 decoding of a byte list; `none` on malformed input.  (The real
`TextDecoder` substitutes U+FFFD instead of failing, but in this
development decoding is only ever reached on byte lists produced by
`utf8Encode`, where the two behaviours agree.)  The main loop carries a
fuel argument for structural recursion; one unit of fuel is spent per
decoded character, and each character consumes at least one input byte,
so fuel equal to the input length always suffices. -/

/-- Decode the continuation byte of a 2-byte UTF-8 sequence with leading
byte `b`. -/
def utf8Cont2 (b : Nat) : List Nat → Option (Char × List Nat)
  | b2 :: r =>
    if 128 ≤ b2 ∧ b2 < 192 then
      if 128 ≤ (b - 192) * 64 + (b2 - 128) then
        some (Char.ofNat ((b - 192) * 64 + (b2 - 128)), r)
      else none
    else none
  | [] => none

/-- Decode the continuation bytes of a 3-byte UTF-8 sequence. -/
def utf8Cont3 (b : Nat) : List Nat → Option (Char × List Nat)
  | b2 :: b3 :: r =>
    if (128 ≤ b2 ∧ b2 < 192) ∧ (128 ≤ b3 ∧ b3 < 192) then
      if 2048 ≤ (b - 224) * 4096 + (b2 - 128) * 64 + (b3 - 128) ∧
          ¬(55296 ≤ (b - 224) * 4096 + (b2 - 128) * 64 + (b3 - 128) ∧
            (b - 224) * 4096 + (b2 - 128) * 64 + (b3 - 128) < 57344) then
        some (Char.ofNat ((b - 224) * 4096 + (b2 - 128) * 64 + (b3 - 128)), r)
      else none
    else none
  | _ => none

/-- Decode the continuation bytes of a 4-byte UTF-8 sequence. -/
def utf8Cont4 (b : Nat) : List Nat → Option (Char × List Nat)
  | b2 :: b3 :: b4 :: r =>
    if (128 ≤ b2 ∧ b2 < 192) ∧ (128 ≤ b3 ∧ b3 < 192) ∧ (128 ≤ b4 ∧ b4 < 192) then
      if 65536 ≤ (b - 240) * 262144 + (b2 - 128) * 4096 + (b3 - 128) * 64 + (b4 - 128) ∧
          (b - 240) * 262144 + (b2 - 128) * 4096 + (b3 - 128) * 64 + (b4 - 128) < 1114112 then
        some
          (Char.ofNat ((b - 240) * 262144 + (b2 - 128) * 4096 + (b3 - 128) * 64 + (b4 - 128)),
            r)
      else none
    else none
  | _ => none

def utf8DecodeFuel : Nat → List Nat → Option (List Char)
  | _, [] => some []
  | 0, _ :: _ => none
  | fuel + 1, b :: rest =>
    if b < 128 then (utf8DecodeFuel fuel rest).map (fun cs => Char.ofNat b :: cs)
    else if b < 192 then none
    else if b < 224 then
      (utf8Cont2 b rest).bind
        (fun p => (utf8DecodeFuel fuel p.2).map (fun cs => p.1 :: cs))
    else if b < 240 then
      (utf8Cont3 b rest).bind
        (fun p => (utf8DecodeFuel fuel p.2).map (fun cs => p.1 :: cs))
    else if b < 248 then
      (utf8Cont4 b rest).bind
        (fun p => (utf8DecodeFuel fuel p.2).map (fun cs => p.1 :: cs))
    else none

def utf8DecodeAux (l : List Nat) : Option (List Char) := utf8DecodeFuel l.length l

/-- Model of `textDecoder.decode`. -/
def utf8Decode (bs : List Nat) : Option String := (utf8DecodeAux bs).map String.mk

lemma char_toNat_lt (c : Char) : c.toNat < 1114112 := by
  have h := c.valid
  simp only [UInt32.isValidChar, Nat.isValidChar] at h
  simp only [Char.toNat]
  omega

lemma char_toNat_not_surrogate (c : Char) : ¬(55296 ≤ c.toNat ∧ c.toNat < 57344) := by
  have h := c.valid
  simp only [UInt32.isValidChar, Nat.isValidChar] at h
  simp only [Char.toNat]
  omega

lemma utf8DecodeFuel_encode (cs : List Char) :
    ∀ fuel, cs.length ≤ fuel →
      utf8DecodeFuel fuel (cs.flatMap utf8EncodeChar) = some cs := by
  induction cs with
  | nil =>
      intro fuel _
      rw [List.flatMap_nil]
      cases fuel <;> rfl
  | cons c cs ih =>
    intro fuel hfuel
    obtain ⟨f, rfl⟩ : ∃ f, fuel = f + 1 := by
      cases fuel with
      | zero => simp at hfuel
      | succ f => exact ⟨f, rfl⟩
    have hf : cs.length ≤ f := by simpa using hfuel
    have hlt := char_toNat_lt c
    have hsur := char_toNat_not_surrogate c
    rw [List.flatMap_cons, utf8EncodeChar]
    by_cases h1 : c.toNat < 128
    · rw [if_pos h1, List.cons_append, List.nil_append, utf8DecodeFuel,
        if_pos h1, ih f hf]
      simp only [Option.map_some']
      rw [Char.ofNat_toNat]
    · rw [if_neg h1]
      by_cases h2 : c.toNat < 2048
      · rw [if_pos h2, List.cons_append, List.cons_append, List.nil_append,
          utf8DecodeFuel, if_neg (by omega), if_neg (by omega), if_pos (by omega),
          utf8Cont2, if_pos (by omega), if_pos (by omega)]
        simp only [Option.some_bind]
        rw [ih f hf]
        simp only [Option.map_some']
        have e : (192 + c.toNat / 64 - 192) * 64 + (128 + c.toNat % 64 - 128) = c.toNat := by
          omega
        rw [e, Char.ofNat_toNat]
      · rw [if_neg h2]
        by_cases h3 : c.toNat < 65536
        · rw [if_pos h3, List.cons_append, List.cons_append, List.cons_append,
            List.nil_append, utf8DecodeFuel, if_neg (by omega), if_neg (by omega),
            if_neg (by omega), if_pos (by omega), utf8Cont3, if_pos (by omega),
            if_pos (by constructor <;> omega)]
          simp only [Option.some_bind]
          rw [ih f hf]
          simp only [Option.map_some']
          have e : (224 + c.toNat / 4096 - 224) * 4096 + (128 + c.toNat / 64 % 64 - 128) * 64 +
              (128 + c.toNat % 64 - 128) = c.toNat := by omega
          rw [e, Char.ofNat_toNat]
        · rw [if_neg h3, List.cons_append, List.cons_append, List.cons_append,
            List.cons_append, List.nil_append, utf8DecodeFuel, if_neg (by omega),
            if_neg (by omega), if_neg (by omega), if_neg (by omega), if_pos (by omega),
            utf8Cont4, if_pos (by omega), if_pos (by omega)]
          simp only [Option.some_bind]
          rw [ih f hf]
          simp only [Option.map_some']
          have e : (240 + c.toNat / 262144 - 240) * 262144 +
              (128 + c.toNat / 4096 % 64 - 128) * 4096 +
              (128 + c.toNat / 64 % 64 - 128) * 64 + (128 + c.toNat % 64 - 128) = c.toNat := by
            omega
          rw [e, Char.ofNat_toNat]

lemma utf8EncodeChar_ge_one (c : Char) : 1 ≤ (utf8EncodeChar c).length := by
  rw [utf8EncodeChar]
  by_cases h1 : c.toNat < 128
  · rw [if_pos h1]
    simp
  · rw [if_neg h1]
    by_cases h2 : c.toNat < 2048
    · rw [if_pos h2]
      simp
    · rw [if_neg h2]
      by_cases h3 : c.toNat < 65536
      · rw [if_pos h3]
        simp
      · rw [if_neg h3]
        simp

lemma length_flatMap_utf8_ge (cs : List Char) :
    cs.length ≤ (cs.flatMap utf8EncodeChar).length := by
  induction cs with
  | nil => simp
  | cons c cs ih =>
      rw [List.flatMap_cons, List.length_append, List.length_cons]
      have := utf8EncodeChar_ge_one c
      omega

lemma utf8DecodeAux_encode (cs : List Char) :
    utf8DecodeAux (cs.flatMap utf8EncodeChar) = some cs :=
  utf8DecodeFuel_encode cs _ (length_flatMap_utf8_ge cs)

theorem utf8Decode_encode (s : String) : utf8Decode (utf8Encode s) = some s := by
  rw [utf8Decode, utf8Encode, utf8DecodeAux_encode]
  cases s
  rfl

lemma utf8EncodeChar_lt (c : Char) : ∀ b ∈ utf8EncodeChar c, b < 256 := by
  have hlt := char_toNat_lt c
  intro b hbm
  rw [utf8EncodeChar] at hbm
  by_cases h1 : c.toNat < 128
  · rw [if_pos h1] at hbm
    simp at hbm
    omega
  · rw [if_neg h1] at hbm
    by_cases h2 : c.toNat < 2048
    · rw [if_pos h2] at hbm
      simp at hbm
      omega
    · rw [if_neg h2] at hbm
      by_cases h3 : c.toNat < 65536
      · rw [if_pos h3] at hbm
        simp at hbm
        omega
      · rw [if_neg h3] at hbm
        simp at hbm
        omega

lemma utf8Encode_lt (s : String) : ∀ b ∈ utf8Encode s, b < 256 := by
  intro b hbm
  rw [utf8Encode] at hbm
  simp only [List.mem_flatMap] at hbm
  obtain ⟨c, _, hc⟩ := hbm
  exact utf8EncodeChar_lt c b hc

/-! ### Idealized WebCrypto: PBKDF2 key derivation and AES-GCM.
`crypto.subtle` is a platform primitive, not repository code; it is
modelled by an ideal functionality: a derived key is determined by
(password bytes, salt, iterations, hash, target algorithm, key length),
and AES-GCM is an ideal authenticated cipher whose ciphertext determines
(key, iv, plaintext) and whose decryption succeeds exactly when the
presented key and iv match the ones used to encrypt. -/

structure CryptoKey where
  keyMaterial : List Nat
  keySalt : List Nat
  iterations : Nat
  hash : String
  algName : String
  algLength : Nat
deriving DecidableEq

/-- Model of `deriveKey`, page.tsx lines 60-69: PBKDF2 over the UTF-8 password
bytes and the supplied salt, 120000 iterations of SHA-256, yielding a
256-bit AES-GCM key. -/
def deriveKey (password : String) (salt : List Nat) : CryptoKey :=
  { keyMaterial := utf8Encode password
    keySalt := salt
    iterations := 120000
    hash := "SHA-256"
    algName := "AES-GCM"
    algLength := 256 }

/-- Self-delimiting byte encoding of a natural number: base-255 digits
terminated by the byte 255.  Used only inside the ideal-cipher model. -/
def encNat (n : Nat) : List Nat :=
  if h : n < 255 then [n, 255] else n % 255 :: encNat (n / 255)
termination_by n
decreasing_by
  simp only [not_lt] at h
  omega

def decNat : List Nat → Option (Nat × List Nat)
  | [] => none
  | b :: rest =>
    if b = 255 then some (0, rest)
    else (decNat rest).map (fun p => (b + 255 * p.1, p.2))

lemma decNat_encNat (n : Nat) (rest : List Nat) :
    decNat (encNat n ++ rest) = some (n, rest) := by
  induction n using encNat.induct with
  | case1 n h =>
      rw [encNat, dif_pos h]
      rw [List.cons_append, List.cons_append, List.nil_append, decNat,
        if_neg (by omega), decNat, if_pos rfl]
      simp
  | case2 n h ih =>
      rw [encNat, dif_neg h]
      simp only [not_lt] at h
      rw [List.cons_append, decNat, if_neg (by omega), ih]
      simp only [Option.map_some']
      have e : n % 255 + 255 * (n / 255) = n := by omega
      rw [e]

/-- Length-prefixed byte-list encoding, for the ideal-cipher model. -/
def encBytes (bs : List Nat) : List Nat := encNat bs.length ++ bs

def decBytes (l : List Nat) : Option (List Nat × List Nat) :=
  (decNat l).bind
    (fun p => if p.1 ≤ p.2.length then some (p.2.take p.1, p.2.drop p.1) else none)

lemma decBytes_encBytes (bs rest : List Nat) :
    decBytes (encBytes bs ++ rest) = some (bs, rest) := by
  rw [encBytes, List.append_assoc, decBytes, decNat_encNat]
  simp only [Option.some_bind]
  rw [if_pos (by simp)]
  rw [List.take_left, List.drop_left]

lemma decBytes_encBytes_nil (bs : List Nat) : decBytes (encBytes bs) = some (bs, []) := by
  have h := decBytes_encBytes bs []
  simpa using h

/-- Length-prefixed string encoding (char count, then each char code as
`encNat`), for the ideal-cipher model. -/
def encStr (s : String) : List Nat :=
  encNat s.length ++ s.data.flatMap (fun c => encNat c.toNat)

def decChars : Nat → List Nat → Option (List Char × List Nat)
  | 0, l => some ([], l)
  | k + 1, l =>
    (decNat l).bind
      (fun p => (decChars k p.2).map (fun q => (Char.ofNat p.1 :: q.1, q.2)))

def decStr (l : List Nat) : Option (String × List Nat) :=
  (decNat l).bind
    (fun p => (decChars p.1 p.2).map (fun q => (String.mk q.1, q.2)))

lemma decChars_enc (cs : List Char) (rest : List Nat) :
    decChars cs.length (cs.flatMap (fun c => encNat c.toNat) ++ rest) = some (cs, rest) := by
  induction cs with
  | nil => rfl
  | cons c cs ih =>
      rw [List.length_cons, List.flatMap_cons, List.append_assoc, decChars,
        decNat_encNat]
      simp only [Option.some_bind]
      rw [ih]
      simp only [Option.map_some']
      rw [Char.ofNat_toNat]

lemma decStr_encStr (s : String) (rest : List Nat) :
    decStr (encStr s ++ rest) = some (s, rest) := by
  rw [encStr, List.append_assoc, decStr, decNat_encNat]
  simp only [Option.some_bind]
  have hl : s.length = s.data.length := rfl
  rw [hl, decChars_enc]
  simp only [Option.map_some']

lemma decStr_encStr_nil (s : String) : decStr (encStr s) = some (s, []) := by
  have h := decStr_encStr s []
  simpa using h

lemma decNat_encNat_nil (n : Nat) : decNat (encNat n) = some (n, []) := by
  have h := decNat_encNat n []
  simpa using h

/-- Modelled platform primitive (`crypto.subtle.encrypt` with AES-GCM):
the ideal ciphertext is an injective byte encoding of the full derived
key, the iv, and the plaintext bytes. -/
def aesGcmEncrypt (key : CryptoKey) (iv : List Nat) (pt : List Nat) : List Nat :=
  encBytes key.keyMaterial ++ encBytes key.keySalt ++ encNat key.iterations ++
  encStr key.hash ++ encStr key.algName ++ encNat key.algLength ++
  encBytes iv ++ encBytes pt

def decodeKeyIvPt (ct : List Nat) : Option (CryptoKey × List Nat × List Nat) := do
  let (km, r1) ← decBytes ct
  let (salt, r2) ← decBytes r1
  let (iter, r3) ← decNat r2
  let (h, r4) ← decStr r3
  let (an, r5) ← decStr r4
  let (al, r6) ← decNat r5
  let (iv, r7) ← decBytes r6
  let (pt, r8) ← decBytes r7
  if r8 = [] then pure (⟨km, salt, iter, h, an, al⟩, iv, pt) else none

/-- Modelled platform primitive (`crypto.subtle.decrypt` with AES-GCM):
succeeds exactly when the ciphertext was produced under the same key and
iv, in which case it returns the original plaintext bytes; any mismatch
is an authentication failure (`none`, the promise rejecting). -/
def aesGcmDecrypt (key : CryptoKey) (iv : List Nat) (ct : List Nat) : Option (List Nat) :=
  match decodeKeyIvPt ct with
  | some (k, i, p) => if k = key ∧ i = iv then some p else none
  | none => none

lemma decodeKeyIvPt_encrypt (key : CryptoKey) (iv pt : List Nat) :
    decodeKeyIvPt (aesGcmEncrypt key iv pt) = some (key, iv, pt) := by
  rw [aesGcmEncrypt, decodeKeyIvPt]
  simp only [List.append_assoc]
  simp [decBytes_encBytes, decNat_encNat, decStr_encStr, decBytes_encBytes_nil]

theorem aesGcm_roundtrip (key : CryptoKey) (iv pt : List Nat) :
    aesGcmDecrypt key iv (aesGcmEncrypt key iv pt) = some pt := by
  rw [aesGcmDecrypt, decodeKeyIvPt_encrypt]
  simp

lemma encNat_lt (n : Nat) : ∀ b ∈ encNat n, b < 256 := by
  induction n using encNat.induct with
  | case1 n h =>
      rw [encNat, dif_pos h]
      intro b hbm
      simp at hbm
      omega
  | case2 n h ih =>
      rw [encNat, dif_neg h]
      intro b hbm
      simp only [List.mem_cons] at hbm
      rcases hbm with hbm | hbm
      · omega
      · exact ih b hbm

lemma encBytes_lt (bs : List Nat) (hb : ∀ b ∈ bs, b < 256) :
    ∀ b ∈ encBytes bs, b < 256 := by
  intro b hbm
  rw [encBytes] at hbm
  rcases List.mem_append.mp hbm with h | h
  · exact encNat_lt _ b h
  · exact hb b h

lemma encStr_lt (s : String) : ∀ b ∈ encStr s, b < 256 := by
  intro b hbm
  rw [encStr] at hbm
  rcases List.mem_append.mp hbm with h | h
  · exact encNat_lt _ b h
  · simp only [List.mem_flatMap] at h
    obtain ⟨c, _, hc⟩ := h
    exact encNat_lt _ b hc

lemma aesGcmEncrypt_lt (key : CryptoKey) (iv pt : List Nat)
    (hkm : ∀ b ∈ key.keyMaterial, b < 256) (hks : ∀ b ∈ key.keySalt, b < 256)
    (hiv : ∀ b ∈ iv, b < 256) (hpt : ∀ b ∈ pt, b < 256) :
    ∀ b ∈ aesGcmEncrypt key iv pt, b < 256 := by
  intro b hbm
  rw [aesGcmEncrypt] at hbm
  simp only [List.append_assoc, List.mem_append] at hbm
  rcases hbm with h | h | h | h | h | h | h | h
  · exact encBytes_lt _ hkm b h
  · exact encBytes_lt _ hks b h
  · exact encNat_lt _ b h
  · exact encStr_lt _ b h
  · exact encStr_lt _ b h
  · exact encNat_lt _ b h
  · exact encBytes_lt _ hiv b h
  · exact encBytes_lt _ hpt b h


/-! ### JSON, modelling the platform `JSON.parse` / `JSON.stringify` as
used on the wire `content` field.  The parser accepts general JSON
values (objects, arrays, strings with escapes, `true` / `false` /
`null`, and numeric tokens, which it keeps as raw text since no numeric
value is ever consumed); `none` models `JSON.parse` throwing a
`SyntaxError`.  Object member lookup is last-occurrence-wins, as in
JavaScript. -/

inductive Json where
  | jnull : Json
  | jbool : Bool → Json
  | jnum : String → Json
  | jstr : String → Json
  | jarr : List Json → Json
  | jobj : List (String × Json) → Json

def jsonWsChar (c : Char) : Bool := c = ' ' || c = '\t' || c = '\n' || c = '\r'

def skipWs (l : List Char) : List Char := l.dropWhile jsonWsChar

def expectChar (c : Char) : List Char → Option (List Char)
  | x :: r => if x = c then some r else none
  | [] => none

def hexVal (c : Char) : Option Nat :=
  if '0' ≤ c ∧ c ≤ '9' then some (c.toNat - 48)
  else if 'a' ≤ c ∧ c ≤ 'f' then some (c.toNat - 87)
  else if 'A' ≤ c ∧ c ≤ 'F' then some (c.toNat - 55)
  else none

def escChar (c : Char) : Option Char :=
  if c = '"' then some '"'
  else if c = '\\' then some '\\'
  else if c = '/' then some '/'
  else if c = 'b' then some (Char.ofNat 8)
  else if c = 'f' then some (Char.ofNat 12)
  else if c = 'n' then some '\n'
  else if c = 'r' then some '\r'
  else if c = 't' then some '\t'
  else none

/-- Consume one escape sequence (the part after the backslash). -/
def popEscape : List Char → Option (Char × List Char)
  | e :: rest =>
    if e = 'u' then
      match rest with
      | h1 :: h2 :: h3 :: h4 :: r =>
        (hexVal h1).bind (fun v1 =>
          (hexVal h2).bind (fun v2 =>
            (hexVal h3).bind (fun v3 =>
              (hexVal h4).map (fun v4 =>
                (Char.ofNat (v1 * 4096 + v2 * 256 + v3 * 16 + v4), r)))))
      | _ => none
    else (escChar e).map (fun ch => (ch, rest))
  | [] => none

/-- Body of a JSON string (after the opening quote), fuelled: one unit
per produced character; fuel equal to the input length suffices. -/
def parseStrFuel : Nat → List Char → Option (List Char × List Char)
  | _, [] => none
  | 0, _ :: _ => none
  | fuel + 1, c :: rest =>
    if c = '"' then some ([], rest)
    else if c = '\\' then
      (popEscape rest).bind
        (fun p => (parseStrFuel fuel p.2).map (fun q => (p.1 :: q.1, q.2)))
    else if c.toNat < 32 then none
    else (parseStrFuel fuel rest).map (fun q => (c :: q.1, q.2))

def parseStringBody (l : List Char) : Option (List Char × List Char) :=
  parseStrFuel l.length l

def parseLit : List Char → List Char → Option (List Char)
  | [], l => some l
  | c :: cs, x :: xs => if x = c then parseLit cs xs else none
  | _ :: _, [] => none

def numChar (c : Char) : Bool :=
  c.isDigit || c = '-' || c = '+' || c = '.' || c = 'e' || c = 'E'

/-- One member-list parsing step, parameterized by the value parser;
recursion is on a member-count fuel. -/
def parseMembersF (pv : List Char → Option (Json × List Char)) :
    Nat → List Char → Option (List (String × Json) × List Char)
  | 0, _ => none
  | fuel + 1, l =>
    (expectChar '"' l).bind (fun l1 =>
      (parseStringBody l1).bind (fun pk =>
        (expectChar ':' (skipWs pk.2)).bind (fun l2 =>
          (pv l2).bind (fun pvv =>
            if (skipWs pvv.2).headD ' ' = ',' then
              (parseMembersF pv fuel (skipWs (skipWs pvv.2).tail)).map
                (fun pm => ((String.mk pk.1, pvv.1) :: pm.1, pm.2))
            else if (skipWs pvv.2).headD ' ' = '}' then
              some ([(String.mk pk.1, pvv.1)], (skipWs pvv.2).tail)
            else none))))

/-- Array-element parsing, parameterized by the value parser. -/
def parseElemsF (pv : List Char → Option (Json × List Char)) :
    Nat → List Char → Option (List Json × List Char)
  | 0, _ => none
  | fuel + 1, l =>
    (pv l).bind (fun pvv =>
      if (skipWs pvv.2).headD ' ' = ',' then
        (parseElemsF pv fuel (skipWs pvv.2).tail).map
          (fun pm => (pvv.1 :: pm.1, pm.2))
      else if (skipWs pvv.2).headD ' ' = ']' then
        some ([pvv.1], (skipWs pvv.2).tail)
      else none)

/-- Dispatch on the first significant character of a JSON value. -/
def parseAfterWs (pv : List Char → Option (Json × List Char)) (fuel : Nat) :
    List Char → Option (Json × List Char)
  | [] => none
  | c :: rest =>
    if c = '"' then
      (parseStringBody rest).map (fun p => (Json.jstr (String.mk p.1), p.2))
    else if c = '{' then
      if (skipWs rest).headD ' ' = '}' then some (Json.jobj [], (skipWs rest).tail)
      else (parseMembersF pv fuel (skipWs rest)).map (fun p => (Json.jobj p.1, p.2))
    else if c = '[' then
      if (skipWs rest).headD ' ' = ']' then some (Json.jarr [], (skipWs rest).tail)
      else (parseElemsF pv fuel (skipWs rest)).map (fun p => (Json.jarr p.1, p.2))
    else if c = 't' then (parseLit ['r', 'u', 'e'] rest).map (fun r => (Json.jbool true, r))
    else if c = 'f' then
      (parseLit ['a', 'l', 's', 'e'] rest).map (fun r => (Json.jbool false, r))
    else if c = 'n' then (parseLit ['u', 'l', 'l'] rest).map (fun r => (Json.jnull, r))
    else if numChar c then
      some (Json.jnum (String.mk (c :: rest.takeWhile numChar)), rest.dropWhile numChar)
    else none

def parseValue : Nat → List Char → Option (Json × List Char)
  | 0, _ => none
  | fuel + 1, l => parseAfterWs (parseValue fuel) fuel (skipWs l)

/-- Model of `JSON.parse`: parse one value and require only whitespace after it. -/
def parseJson (s : String) : Option Json :=
  (parseValue (s.data.length + 1) s.data).bind
    (fun p => if skipWs p.2 = [] then some p.1 else none)

/-- Last-occurrence-wins association lookup, as JavaScript's
`JSON.parse` keeps the last duplicate of a key. -/
def memberLookup : List (String × Json) → String → Option Json
  | [], _ => none
  | kv :: rest, key =>
    match memberLookup rest key with
    | some r => some r
    | none => if kv.1 = key then some kv.2 else none

/-- JavaScript object member access `obj[key]` after `JSON.parse`:
`none` for a missing key or a non-object (`undefined`). -/
def jsonMember : Json → String → Option Json
  | Json.jobj ms, key => memberLookup ms key
  | _, _ => none


/-- The string-typed member of a parsed JSON value: `some s` when the
member exists and is a JSON string, `none` otherwise.  (JavaScript would
coerce a non-string member with `String(...)` inside `atob`; every such
coercion either makes `atob` throw or fails the later AES-GCM
authentication, so collapsing it to failure here is observationally
equivalent for `decryptTextFromEnvelope`.) -/
def jsonStrField (j : Json) (k : String) : Option String :=
  match jsonMember j k with
  | some (Json.jstr s) => some s
  | _ => none

/-! ### The envelope codec (page.tsx lines 23-29 and 60-91). -/

/-- The `CipherEnvelopeV1` record of page.tsx lines 23-29 as built by
`encryptText`: all five fields are strings on the wire. -/
structure CipherEnvelopeV1 where
  v : String
  alg : String
  iv : String
  salt : String
  ct : String
deriving DecidableEq

/-- Model of `encryptText`, page.tsx lines 70-77.  `randomValues n` models the
call `crypto.getRandomValues(new Uint8Array(n))`: the source draws 12
bytes for the iv and 16 bytes for the salt on every call. -/
def encryptText (plain password : String) (randomValues : Nat → List Nat) :
    CipherEnvelopeV1 :=
  { v := "v1"
    alg := "AES-GCM"
    iv := toB64 (randomValues 12)
    salt := toB64 (randomValues 16)
    ct := toB64 (aesGcmEncrypt (deriveKey password (randomValues 16))
      (randomValues 12) (utf8Encode plain)) }

/-- One hexadecimal digit, for `JSON.stringify` control-character
escapes. -/
def hexDigit (n : Nat) : Char :=
  if n < 10 then Char.ofNat (48 + n) else Char.ofNat (87 + n)

/-- How `JSON.stringify` escapes one character inside a string. -/
def escapeChar (c : Char) : List Char :=
  if c = '"' then ['\\', '"']
  else if c = '\\' then ['\\', '\\']
  else if c = Char.ofNat 8 then ['\\', 'b']
  else if c = Char.ofNat 12 then ['\\', 'f']
  else if c = '\n' then ['\\', 'n']
  else if c = '\r' then ['\\', 'r']
  else if c = '\t' then ['\\', 't']
  else if c.toNat < 32 then
    ['\\', 'u', '0', '0', hexDigit (c.toNat / 16), hexDigit (c.toNat % 16)]
  else [c]

def escapeChars (l : List Char) : List Char := l.flatMap escapeChar

/-- The characters of one serialized object member `"k":"v"`. -/
def fieldChars (k v : String) : List Char :=
  '"' :: escapeChars k.data ++ '"' :: ':' :: '"' :: escapeChars v.data ++ ['"']

/-- Comma-separated serialized members. -/
def membersChars : List (String × String) → List Char
  | [] => []
  | [kv] => fieldChars kv.1 kv.2
  | kv :: rest => fieldChars kv.1 kv.2 ++ ',' :: membersChars rest

/-- The characters of `JSON.stringify(env)`: JavaScript serializes the
object's own enumerable string-valued fields in insertion order
`v, alg, iv, salt, ct` (page.tsx line 75). -/
def envWireChars (env : CipherEnvelopeV1) : List Char :=
  '{' :: membersChars
    [("v", env.v), ("alg", env.alg), ("iv", env.iv), ("salt", env.salt), ("ct", env.ct)]
    ++ ['}']

/-- Model of `JSON.stringify(env)` as called at page.tsx line 262. -/
def stringifyEnv (env : CipherEnvelopeV1) : String := String.mk (envWireChars env)

/-- The `try` body of `decryptTextFromEnvelope` (page.tsx lines 79-87):
parse, check `v` and `alg`, base64-decode `iv` / `salt` / `ct`, derive
the key, authenticate-decrypt, UTF-8-decode.  `none` means the body
threw (or a promise rejected) at the corresponding stage. -/
def decryptAttempt (contentField password : String) : Option String :=
  (parseJson contentField).bind (fun j =>
    if jsonStrField j "v" = some "v1" ∧ jsonStrField j "alg" = some "AES-GCM" then
      (jsonStrField j "iv").bind (fun ivStr =>
        (fromB64 ivStr).bind (fun iv =>
          (jsonStrField j "salt").bind (fun saltStr =>
            (fromB64 saltStr).bind (fun salt =>
              (jsonStrField j "ct").bind (fun ctStr =>
                (fromB64 ctStr).bind (fun ct =>
                  (aesGcmDecrypt (deriveKey password salt) iv ct).bind
                    (fun ptBytes => utf8Decode ptBytes)))))))
    else none)

/-- Model of `decryptTextFromEnvelope`, page.tsx lines 78-91: the `catch`
returns the wire content unchanged on any failure. -/
def decryptTextFromEnvelope (contentField password : String) : String :=
  (decryptAttempt contentField password).getD contentField


/-! ### Correctness of the wire round trip: `parseJson (stringifyEnv env)`. -/

/-- Characters that survive JSON string serialization unchanged and are
consumed verbatim by the string parser. -/
def GoodChar (c : Char) : Prop := c ≠ '"' ∧ c ≠ '\\' ∧ 32 ≤ c.toNat

instance (c : Char) : Decidable (GoodChar c) := by
  unfold GoodChar
  infer_instance

lemma skipWs_cons_not (c : Char) (l : List Char) (h : jsonWsChar c = false) :
    skipWs (c :: l) = c :: l := by
  simp [skipWs, List.dropWhile_cons, h]

lemma parseStrFuel_plain (gs : List Char) :
    ∀ (fuel : Nat) (rest : List Char), (∀ c ∈ gs, GoodChar c) →
      gs.length + 1 ≤ fuel →
      parseStrFuel fuel (gs ++ '"' :: rest) = some (gs, rest) := by
  induction gs with
  | nil =>
      intro fuel rest _ hf
      obtain ⟨f, rfl⟩ : ∃ f, fuel = f + 1 := by
        cases fuel with
        | zero => omega
        | succ f => exact ⟨f, rfl⟩
      rw [List.nil_append, parseStrFuel, if_pos rfl]
  | cons c gs ih =>
      intro fuel rest hg hf
      obtain ⟨f, rfl⟩ : ∃ f, fuel = f + 1 := by
        cases fuel with
        | zero => omega
        | succ f => exact ⟨f, rfl⟩
      have hc : GoodChar c := hg c (by simp)
      have h32 := hc.2.2
      rw [List.cons_append, parseStrFuel, if_neg hc.1, if_neg hc.2.1,
        if_neg (by omega),
        ih f rest (fun d hd => hg d (by simp [hd])) (by simp at hf ⊢; omega)]
      rfl

lemma parseStringBody_plain (gs rest : List Char) (hg : ∀ c ∈ gs, GoodChar c) :
    parseStringBody (gs ++ '"' :: rest) = some (gs, rest) := by
  rw [parseStringBody]
  exact parseStrFuel_plain gs _ rest hg (by simp)

lemma escapeChar_good (c : Char) (hc : GoodChar c) : escapeChar c = [c] := by
  have h32 := hc.2.2
  rw [escapeChar, if_neg hc.1, if_neg hc.2.1,
    if_neg (fun he => by rw [he] at h32; exact absurd h32 (by decide)),
    if_neg (fun he => by rw [he] at h32; exact absurd h32 (by decide)),
    if_neg (fun he => by rw [he] at h32; exact absurd h32 (by decide)),
    if_neg (fun he => by rw [he] at h32; exact absurd h32 (by decide)),
    if_neg (fun he => by rw [he] at h32; exact absurd h32 (by decide)),
    if_neg (by omega)]

lemma escapeChars_good (l : List Char) (h : ∀ c ∈ l, GoodChar c) :
    escapeChars l = l := by
  induction l with
  | nil => rfl
  | cons c l ih =>
      rw [escapeChars, List.flatMap_cons, escapeChar_good c (h c (by simp))]
      rw [escapeChars] at ih
      rw [ih (fun d hd => h d (by simp [hd]))]
      rfl

lemma b64Char_good (i : Nat) : GoodChar (b64Char i) := by
  by_cases h : i < 64
  · have key : ∀ j : Fin 64, GoodChar (b64Char j.val) := by decide
    exact key ⟨i, h⟩
  · rw [b64Char, List.getD_eq_default]
    · decide
    · have : b64Chars.length = 64 := by decide
      omega

lemma toB64_good (bs : List Nat) : ∀ c ∈ (toB64 bs).data, GoodChar c := by
  have key : ∀ c ∈ b64EncodeChunks bs, GoodChar c := by
    induction bs using b64EncodeChunks.induct with
    | case1 =>
        intro c hc
        simp [b64EncodeChunks] at hc
    | case2 b1 =>
        intro c hc
        rw [b64EncodeChunks] at hc
        simp only [List.mem_cons, List.not_mem_nil, or_false] at hc
        rcases hc with h | h | h | h <;> subst h
        · exact b64Char_good _
        · exact b64Char_good _
        · decide
        · decide
    | case3 b1 b2 =>
        intro c hc
        rw [b64EncodeChunks] at hc
        simp only [List.mem_cons, List.not_mem_nil, or_false] at hc
        rcases hc with h | h | h | h <;> subst h
        · exact b64Char_good _
        · exact b64Char_good _
        · exact b64Char_good _
        · decide
    | case4 b1 b2 b3 rest ih =>
        intro c hc
        rw [b64EncodeChunks] at hc
        simp only [List.mem_cons] at hc
        rcases hc with h | h | h | h | h
        · subst h
          exact b64Char_good _
        · subst h
          exact b64Char_good _
        · subst h
          exact b64Char_good _
        · subst h
          exact b64Char_good _
        · exact ih c h
  exact key


lemma parseValue_jstr (f : Nat) (gs rest : List Char) (hg : ∀ c ∈ gs, GoodChar c) :
    parseValue (f + 1) ('"' :: (gs ++ '"' :: rest)) =
      some (Json.jstr (String.mk gs), rest) := by
  rw [parseValue, skipWs_cons_not _ _ (by decide), parseAfterWs, if_pos rfl,
    parseStringBody_plain gs rest hg]
  rfl

lemma parseMembersF_step_comma (k v : String) (pf f0 : Nat) (more : List Char)
    (hk : ∀ c ∈ k.data, GoodChar c) (hv : ∀ c ∈ v.data, GoodChar c) :
    parseMembersF (parseValue (pf + 1)) (f0 + 1) (fieldChars k v ++ ',' :: more) =
      (parseMembersF (parseValue (pf + 1)) f0 (skipWs more)).map
        (fun pm => ((k, Json.jstr v) :: pm.1, pm.2)) := by
  rw [fieldChars, escapeChars_good k.data hk, escapeChars_good v.data hv]
  simp only [List.cons_append, List.nil_append, List.append_assoc]
  rw [parseMembersF, expectChar, if_pos rfl]
  simp only [Option.some_bind]
  rw [parseStringBody_plain k.data _ hk]
  simp only [Option.some_bind]
  rw [skipWs_cons_not _ _ (by decide), expectChar, if_pos rfl]
  simp only [Option.some_bind]
  rw [parseValue_jstr pf v.data _ hv]
  simp only [Option.some_bind]
  rw [skipWs_cons_not _ _ (by decide)]
  simp only [List.headD_cons, if_pos rfl, List.tail_cons]
  rfl

lemma parseMembersF_step_close (k v : String) (pf f0 : Nat) (rest : List Char)
    (hk : ∀ c ∈ k.data, GoodChar c) (hv : ∀ c ∈ v.data, GoodChar c) :
    parseMembersF (parseValue (pf + 1)) (f0 + 1) (fieldChars k v ++ '}' :: rest) =
      some ([(k, Json.jstr v)], rest) := by
  rw [fieldChars, escapeChars_good k.data hk, escapeChars_good v.data hv]
  simp only [List.cons_append, List.nil_append, List.append_assoc]
  rw [parseMembersF, expectChar, if_pos rfl]
  simp only [Option.some_bind]
  rw [parseStringBody_plain k.data _ hk]
  simp only [Option.some_bind]
  rw [skipWs_cons_not _ _ (by decide), expectChar, if_pos rfl]
  simp only [Option.some_bind]
  rw [parseValue_jstr pf v.data _ hv]
  simp only [Option.some_bind]
  rw [skipWs_cons_not _ _ (by decide)]
  simp

lemma membersChars_cons_head (kv : String × String) (t : List (String × String)) :
    ∃ tl, membersChars (kv :: t) = '"' :: tl := by
  cases t with
  | nil => exact ⟨_, rfl⟩
  | cons kv2 t2 => exact ⟨_, rfl⟩

lemma parseMembersF_fields (ms : List (String × String)) :
    ∀ (pf fuel : Nat) (rest : List Char), ms ≠ [] →
      (∀ kv ∈ ms,
        (∀ c ∈ (kv.1 : String).data, GoodChar c) ∧ (∀ c ∈ (kv.2 : String).data, GoodChar c)) →
      ms.length ≤ fuel →
      parseMembersF (parseValue (pf + 1)) fuel (membersChars ms ++ '}' :: rest) =
        some (ms.map (fun kv => (kv.1, Json.jstr kv.2)), rest) := by
  induction ms with
  | nil =>
      intro pf fuel rest hne _ _
      exact absurd rfl hne
  | cons kv t ih =>
      intro pf fuel rest _ hg hf
      obtain ⟨f0, rfl⟩ : ∃ f0, fuel = f0 + 1 := by
        cases fuel with
        | zero => simp at hf
        | succ f => exact ⟨f, rfl⟩
      have hkv := hg kv (by simp)
      cases t with
      | nil =>
          rw [show membersChars [kv] = fieldChars kv.1 kv.2 from rfl,
            parseMembersF_step_close kv.1 kv.2 pf f0 rest hkv.1 hkv.2]
          rfl
      | cons kv2 t2 =>
          rw [show membersChars (kv :: kv2 :: t2) =
              fieldChars kv.1 kv.2 ++ ',' :: membersChars (kv2 :: t2) from rfl,
            List.append_assoc, List.cons_append,
            parseMembersF_step_comma kv.1 kv.2 pf f0 _ hkv.1 hkv.2]
          obtain ⟨tl, htl⟩ := membersChars_cons_head kv2 t2
          rw [htl, List.cons_append, skipWs_cons_not _ _ (by decide), ← List.cons_append,
            ← htl, ih pf f0 rest (by simp) (fun d hd => hg d (by simp [hd]))
              (by simp at hf ⊢; omega)]
          rfl


/-- The JSON value that `JSON.parse` recovers from a serialized
envelope. -/
def envJson (env : CipherEnvelopeV1) : Json :=
  Json.jobj [("v", Json.jstr env.v), ("alg", Json.jstr env.alg),
    ("iv", Json.jstr env.iv), ("salt", Json.jstr env.salt), ("ct", Json.jstr env.ct)]

lemma fieldChars_len (k v : String) : 5 ≤ (fieldChars k v).length := by
  rw [fieldChars]
  simp only [List.length_cons, List.length_append]
  omega

lemma envWireChars_len (env : CipherEnvelopeV1) : 5 ≤ (envWireChars env).length := by
  rw [envWireChars]
  rw [show membersChars
      [("v", env.v), ("alg", env.alg), ("iv", env.iv), ("salt", env.salt), ("ct", env.ct)] =
      fieldChars "v" env.v ++ ',' :: membersChars
        [("alg", env.alg), ("iv", env.iv), ("salt", env.salt), ("ct", env.ct)] from rfl]
  simp only [List.length_cons, List.length_append]
  have := fieldChars_len "v" env.v
  omega

lemma parseJson_stringifyEnv (env : CipherEnvelopeV1)
    (hv : ∀ c ∈ env.v.data, GoodChar c) (halg : ∀ c ∈ env.alg.data, GoodChar c)
    (hiv : ∀ c ∈ env.iv.data, GoodChar c) (hsalt : ∀ c ∈ env.salt.data, GoodChar c)
    (hct : ∀ c ∈ env.ct.data, GoodChar c) :
    parseJson (stringifyEnv env) = some (envJson env) := by
  have hdata : (stringifyEnv env).data = envWireChars env := rfl
  have hlen := envWireChars_len env
  rw [parseJson, hdata]
  obtain ⟨pf, hpf⟩ : ∃ pf, (envWireChars env).length = pf + 1 :=
    ⟨(envWireChars env).length - 1, by omega⟩
  rw [hpf]
  rw [parseValue]
  rw [show envWireChars env = '{' :: (membersChars
      [("v", env.v), ("alg", env.alg), ("iv", env.iv), ("salt", env.salt), ("ct", env.ct)]
      ++ ['}']) from rfl]
  rw [skipWs_cons_not _ _ (by decide), parseAfterWs, if_neg (by decide), if_pos rfl]
  obtain ⟨tl, htl⟩ := membersChars_cons_head ("v", env.v)
    [("alg", env.alg), ("iv", env.iv), ("salt", env.salt), ("ct", env.ct)]
  rw [htl, List.cons_append, skipWs_cons_not _ _ (by decide)]
  simp only [List.headD_cons]
  rw [if_neg (by decide), ← List.cons_append, ← htl]
  rw [show (membersChars
      [("v", env.v), ("alg", env.alg), ("iv", env.iv), ("salt", env.salt), ("ct", env.ct)]
      ++ ['}'] : List Char) = membersChars
      [("v", env.v), ("alg", env.alg), ("iv", env.iv), ("salt", env.salt), ("ct", env.ct)]
      ++ '}' :: [] from rfl]
  have gk1 : ∀ c ∈ ("v" : String).data, GoodChar c := by decide
  have gk2 : ∀ c ∈ ("alg" : String).data, GoodChar c := by decide
  have gk3 : ∀ c ∈ ("iv" : String).data, GoodChar c := by decide
  have gk4 : ∀ c ∈ ("salt" : String).data, GoodChar c := by decide
  have gk5 : ∀ c ∈ ("ct" : String).data, GoodChar c := by decide
  rw [parseMembersF_fields _ pf (pf + 1) [] (by simp)
    (by
      intro kv hkv
      simp only [List.mem_cons, List.not_mem_nil, or_false] at hkv
      rcases hkv with h | h | h | h | h <;> subst h
      · exact ⟨gk1, hv⟩
      · exact ⟨gk2, halg⟩
      · exact ⟨gk3, hiv⟩
      · exact ⟨gk4, hsalt⟩
      · exact ⟨gk5, hct⟩)
    (by
      simp only [List.length_cons, List.length_nil]
      omega)]
  simp only [Option.map_some', Option.some_bind]
  rw [if_pos (show skipWs ([] : List Char) = [] from rfl)]
  rfl

/-- C1: for every plaintext string and every password, decrypting the
envelope produced by `encryptText` (serialized with `stringifyEnv`)
under the same password returns the plaintext — for any outputs of the
platform randomness source whose entries are bytes. -/
theorem decryptTextFromEnvelope_encryptText (plain password : String)
    (randomValues : Nat → List Nat)
    (h12 : ∀ b ∈ randomValues 12, b < 256) (h16 : ∀ b ∈ randomValues 16, b < 256) :
    decryptTextFromEnvelope
      (stringifyEnv (encryptText plain password randomValues)) password = plain := by
  have hct : ∀ b ∈ aesGcmEncrypt (deriveKey password (randomValues 16))
      (randomValues 12) (utf8Encode plain), b < 256 :=
    aesGcmEncrypt_lt _ _ _ (utf8Encode_lt password) h16 h12 (utf8Encode_lt plain)
  have gv1 : ∀ c ∈ ("v1" : String).data, GoodChar c := by decide
  have galg : ∀ c ∈ ("AES-GCM" : String).data, GoodChar c := by decide
  rw [decryptTextFromEnvelope, decryptAttempt,
    parseJson_stringifyEnv _ gv1 galg (toB64_good _) (toB64_good _) (toB64_good _)]
  simp only [Option.some_bind]
  rw [if_pos ⟨rfl, rfl⟩]
  rw [show jsonStrField (envJson (encryptText plain password randomValues)) "iv" =
      some (toB64 (randomValues 12)) from rfl]
  simp only [Option.some_bind]
  rw [fromB64_toB64 _ h12]
  simp only [Option.some_bind]
  rw [show jsonStrField (envJson (encryptText plain password randomValues)) "salt" =
      some (toB64 (randomValues 16)) from rfl]
  simp only [Option.some_bind]
  rw [fromB64_toB64 _ h16]
  simp only [Option.some_bind]
  rw [show jsonStrField (envJson (encryptText plain password randomValues)) "ct" =
      some (toB64 (aesGcmEncrypt (deriveKey password (randomValues 16))
        (randomValues 12) (utf8Encode plain))) from rfl]
  simp only [Option.some_bind]
  rw [fromB64_toB64 _ hct]
  simp only [Option.some_bind]
  rw [aesGcm_roundtrip]
  simp only [Option.some_bind]
  rw [utf8Decode_encode]
  rfl


/-! ### Room identity normalization (page.tsx lines 127-128).
`String.prototype.trim` and `String.prototype.toLowerCase` are platform
primitives; they are modelled on the character ranges this application
can meet: `trim` strips the ASCII whitespace characters (space, tab,
line feed, vertical tab, form feed, carriage return) from both ends, and
`toLowerCase` applies the simple case mapping on the ASCII range. -/

def jsWhitespace (c : Char) : Bool :=
  c.toNat = 32 || c.toNat = 9 || c.toNat = 10 || c.toNat = 11 || c.toNat = 12 ||
    c.toNat = 13

/-- Model of `String.prototype.trim`. -/
def jsTrim (s : String) : String :=
  String.mk (((s.data.dropWhile jsWhitespace).reverse.dropWhile jsWhitespace).reverse)

def lowerChar (c : Char) : Char :=
  if 65 ≤ c.toNat ∧ c.toNat ≤ 90 then Char.ofNat (c.toNat + 32) else c

/-- Model of `String.prototype.toLowerCase`. -/
def jsToLower (s : String) : String := String.mk (s.data.map lowerChar)

/-- Model of `normalizedRoom`, page.tsx line 127: `room.trim().toLowerCase()`. -/
def normalizedRoom (room : String) : String := jsToLower (jsTrim room)

/-- Model of `normalizedName`, page.tsx line 128: `name.trim()`. -/
def normalizedName (name : String) : String := jsTrim name

lemma lowerChar_toNat_of_upper (c : Char) (h : 65 ≤ c.toNat ∧ c.toNat ≤ 90) :
    (lowerChar c).toNat = c.toNat + 32 := by
  rw [lowerChar, if_pos h]
  have hvalid : (c.toNat + 32).isValidChar := by
    left
    omega
  simp [Char.ofNat, hvalid]
  rfl

lemma lowerChar_idem (c : Char) : lowerChar (lowerChar c) = lowerChar c := by
  by_cases h : 65 ≤ c.toNat ∧ c.toNat ≤ 90
  · have ht := lowerChar_toNat_of_upper c h
    rw [show lowerChar (lowerChar c) = (if 65 ≤ (lowerChar c).toNat ∧
        (lowerChar c).toNat ≤ 90 then Char.ofNat ((lowerChar c).toNat + 32)
        else lowerChar c) from rfl]
    rw [if_neg (by omega)]
  · rw [show lowerChar c = (if 65 ≤ c.toNat ∧ c.toNat ≤ 90 then
      Char.ofNat (c.toNat + 32) else c) from rfl, if_neg h]
    rw [lowerChar, if_neg h]

lemma lowerChar_ws (c : Char) : jsWhitespace (lowerChar c) = jsWhitespace c := by
  by_cases h : 65 ≤ c.toNat ∧ c.toNat ≤ 90
  · have ht := lowerChar_toNat_of_upper c h
    rw [jsWhitespace, jsWhitespace, ht]
    have h1 : (c.toNat + 32 = 32 || c.toNat + 32 = 9 || c.toNat + 32 = 10 ||
        c.toNat + 32 = 11 || c.toNat + 32 = 12 || c.toNat + 32 = 13) = false := by
      simp
      omega
    have h2 : (c.toNat = 32 || c.toNat = 9 || c.toNat = 10 || c.toNat = 11 ||
        c.toNat = 12 || c.toNat = 13) = false := by
      simp
      omega
    rw [h1, h2]
  · rw [lowerChar, if_neg h]

lemma dropWhile_dropWhile (p : Char → Bool) (l : List Char) :
    (l.dropWhile p).dropWhile p = l.dropWhile p := by
  induction l with
  | nil => rfl
  | cons a l ih =>
      by_cases hp : p a
      · rw [List.dropWhile_cons, if_pos hp, ih]
      · rw [List.dropWhile_cons, if_neg hp, List.dropWhile_cons, if_neg hp]

lemma head_dropWhile_false (p : Char → Bool) (l : List Char) (c : Char)
    (hc : (l.dropWhile p).head? = some c) : p c = false := by
  induction l with
  | nil => simp [List.dropWhile] at hc
  | cons a l ih =>
      rw [List.dropWhile_cons] at hc
      by_cases hp : p a
      · rw [if_pos hp] at hc
        exact ih hc
      · rw [if_neg hp] at hc
        simp at hc
        rw [← hc]
        simp [hp]

lemma dropWhile_of_head_false (p : Char → Bool) (l : List Char)
    (h : ∀ c, l.head? = some c → p c = false) : l.dropWhile p = l := by
  cases l with
  | nil => rfl
  | cons a l =>
      rw [List.dropWhile_cons, if_neg (by simp [h a rfl])]

lemma trimR_head (p : Char → Bool) (a : Char) (t : List Char) :
    ((a :: t).reverse.dropWhile p).reverse = [] ∨
      (((a :: t).reverse.dropWhile p).reverse).head? = some a := by
  rw [List.reverse_cons, List.dropWhile_append]
  by_cases he : (t.reverse.dropWhile p).isEmpty
  · rw [if_pos he]
    by_cases hp : p a
    · left
      simp [List.dropWhile_cons, hp, List.dropWhile]
    · right
      simp [List.dropWhile_cons, hp, List.dropWhile]
  · rw [if_neg he]
    right
    simp

lemma jsTrim_idem (s : String) : jsTrim (jsTrim s) = jsTrim s := by
  rw [jsTrim, jsTrim]
  have hdata : (String.mk (((s.data.dropWhile jsWhitespace).reverse.dropWhile
      jsWhitespace).reverse)).data =
      ((s.data.dropWhile jsWhitespace).reverse.dropWhile jsWhitespace).reverse := rfl
  rw [hdata]
  have h1 : (((s.data.dropWhile jsWhitespace).reverse.dropWhile
      jsWhitespace).reverse).dropWhile jsWhitespace =
      ((s.data.dropWhile jsWhitespace).reverse.dropWhile jsWhitespace).reverse := by
    apply dropWhile_of_head_false
    intro c hc
    cases hu : s.data.dropWhile jsWhitespace with
    | nil =>
        rw [hu] at hc
        simp [List.dropWhile] at hc
    | cons a u =>
        have ha : jsWhitespace a = false := by
          apply head_dropWhile_false jsWhitespace s.data
          rw [hu]
          rfl
        rcases trimR_head jsWhitespace a u with h | h
        · rw [hu, h] at hc
          simp at hc
        · rw [hu, h] at hc
          cases hc
          exact ha
  rw [h1, List.reverse_reverse, dropWhile_dropWhile]

lemma jsToLower_idem (s : String) : jsToLower (jsToLower s) = jsToLower s := by
  rw [jsToLower, jsToLower]
  have hdata : (String.mk (s.data.map lowerChar)).data = s.data.map lowerChar := rfl
  rw [hdata, List.map_map]
  have : lowerChar ∘ lowerChar = lowerChar := funext lowerChar_idem
  rw [this]

lemma jsTrim_jsToLower (s : String) : jsTrim (jsToLower s) = jsToLower (jsTrim s) := by
  rw [jsTrim, jsToLower, jsTrim, jsToLower]
  have hdata : (String.mk (s.data.map lowerChar)).data = s.data.map lowerChar := rfl
  rw [hdata]
  have hpred : (jsWhitespace ∘ lowerChar) = jsWhitespace := funext lowerChar_ws
  rw [List.dropWhile_map, hpred, ← List.map_reverse, List.dropWhile_map, hpred,
    ← List.map_reverse]

/-- Helper for C4: `normalizedRoom` is idempotent. -/
theorem normalizedRoom_idem (x : String) :
    normalizedRoom (normalizedRoom x) = normalizedRoom x := by
  rw [normalizedRoom, normalizedRoom, jsTrim_jsToLower, jsTrim_idem, jsToLower_idem]


/-! ### Session state and operations of the `ChatApp` component
(page.tsx lines 95-319).  React state hooks and refs become record
fields; each `async` handler is split at its `await` points into a
start phase (what runs synchronously, and the remote request it issues)
and a finish phase (the continuation applied to the settled result),
which is exactly how the JavaScript event loop executes it. -/

structure Message where
  id : String
  room : String
  author : String
  content : String
  created_at : String
deriving DecidableEq

/-- The backfill SELECT built at page.tsx lines 162-167. -/
structure SelectQuery where
  table : String
  eqRoom : String
  orderColumn : String
  ascending : Bool
  limit : Nat
deriving DecidableEq

/-- The row shape of the INSERT issued at page.tsx lines 259-263. -/
structure InsertRow where
  room : String
  author : String
  content : String
deriving DecidableEq

/-- Payload of the `typing` broadcast (page.tsx line 313). -/
structure TypingBroadcast where
  name : String
  typing : Bool
deriving DecidableEq

/-- The realtime channels opened at the end of `joinRoom`
(page.tsx lines 191-244). -/
inductive ChannelOpen where
  | messagesChannel (topic : String) (filterRoom : String)
  | presenceChannel (topic : String) (presenceKey : String)
deriving DecidableEq

/-- The component state: `useState` hooks and the refs that carry
session data (page.tsx lines 100-124). -/
structure AppState where
  room : String
  name : String
  pass : String
  joined : Bool
  loading : Bool
  message : String
  messages : List Message
  onlineUsers : Nat
  typingUsers : Finset String
  errMsg : String
  infoMsg : String
  selfTyping : Bool
  typingTimerArmed : Bool
  msgChannelOpen : Bool
  presenceChannelOpen : Bool
deriving DecidableEq

/-- The values the `joinRoom` closure captures before its `await`:
canonical room key, canonical display name, and the password. -/
structure JoinCapture where
  roomKey : String
  nameKey : String
  pass : String
deriving DecidableEq

/-- First phase of `joinRoom` (page.tsx lines 145-167): clear the
banners, validate, tear down previous channels, clear the message list,
set loading, and issue the backfill SELECT.  `none` = local validation
failure, no query issued. -/
def joinRoomStart (st : AppState) : AppState × Option (SelectQuery × JoinCapture) :=
  if normalizedRoom st.room = "" ∨ normalizedName st.name = "" ∨ st.pass = "" then
    ({st with errMsg := "Inserisci nome, ID stanza e password.", infoMsg := ""}, none)
  else
    ({st with
        errMsg := "", infoMsg := "", msgChannelOpen := false,
        presenceChannelOpen := false, messages := [], loading := true},
      some ({ table := "messages", eqRoom := normalizedRoom st.room,
              orderColumn := "created_at", ascending := true, limit := 200 },
            { roomKey := normalizedRoom st.room, nameKey := normalizedName st.name,
              pass := st.pass }))

/-- Second phase of `joinRoom` (page.tsx lines 169-244), the
continuation applied to whatever state holds when the SELECT settles:
on error set the banner and stop loading; on success store the
decrypted rows, mark joined, and open the two realtime channels keyed
by the captured canonical room, with presence keyed by the captured
display name. -/
def joinRoomFinish (st : AppState) (cap : JoinCapture)
    (result : Except String (List Message)) : AppState × List ChannelOpen :=
  match result with
  | .error e =>
      ({st with errMsg := "Errore Supabase SELECT: " ++ e, loading := false}, [])
  | .ok rows =>
      ({st with
          messages := rows.map
            (fun m => {m with content := decryptTextFromEnvelope m.content cap.pass}),
          joined := true, loading := false,
          msgChannelOpen := true, presenceChannelOpen := true},
        [ChannelOpen.messagesChannel ("room:" ++ cap.roomKey) cap.roomKey,
         ChannelOpen.presenceChannel ("presence:" ++ cap.roomKey) cap.nameKey])

/-- The `Esci` button handler (page.tsx lines 450-460). -/
def leaveRoom (st : AppState) : AppState :=
  {st with
    msgChannelOpen := false, presenceChannelOpen := false,
    joined := false, onlineUsers := 0, typingUsers := ∅,
    typingTimerArmed := false, selfTyping := false, messages := []}

/-- Model of `sendTyping`, page.tsx lines 310-314: edge-triggered; updates the
self-typing ref and transmits only on a change, and only if the
presence channel exists. -/
def sendTyping (st : AppState) (typing : Bool) : AppState × Option TypingBroadcast :=
  if st.selfTyping = typing then (st, none)
  else
    ({st with selfTyping := typing},
      if st.presenceChannelOpen then
        some {name := normalizedName st.name, typing := typing}
      else none)

/-- The debounce interval of `handleTypingActivity` (page.tsx line 318). -/
def typingDebounceMs : Nat := 1500

/-- Model of `handleTypingActivity`, page.tsx lines 315-319: signal typing and
re-arm the single-shot `typingDebounceMs` timer. -/
def handleTypingActivity (st : AppState) : AppState × Option TypingBroadcast :=
  ({(sendTyping st true).1 with typingTimerArmed := true}, (sendTyping st true).2)

/-- The armed debounce timer firing after `typingDebounceMs` with no
further activity (the callback at page.tsx line 318). -/
def typingTimerFire (st : AppState) : AppState × Option TypingBroadcast :=
  if st.typingTimerArmed then
    ({(sendTyping st false).1 with typingTimerArmed := false}, (sendTyping st false).2)
  else (st, none)

/-- A burst of `n` activity calls with no intervening timer expiry
(all inside one debounce window), collecting the transmissions. -/
def runActivityBurst : Nat → AppState → AppState × List TypingBroadcast
  | 0, st => (st, [])
  | n + 1, st =>
      ((runActivityBurst n (handleTypingActivity st).1).1,
        (handleTypingActivity st).2.toList ++
          (runActivityBurst n (handleTypingActivity st).1).2)

/-- First phase of `sendMessage` (page.tsx lines 248-256): clear the
banners; on empty trimmed text or missing room / name / password return
with no network call (and nothing surfaced); otherwise clear the
compose buffer, signal typing stopped, and hand the trimmed text to the
encrypt-and-insert phase. -/
def sendMessageStart (st : AppState) : AppState × Option String :=
  if jsTrim st.message = "" ∨ normalizedRoom st.room = "" ∨
      normalizedName st.name = "" ∨ st.pass = "" then
    ({st with errMsg := "", infoMsg := ""}, none)
  else
    ((sendTyping {st with errMsg := "", infoMsg := "", message := ""} false).1,
      some (jsTrim st.message))

/-- The row `sendMessage` inserts (page.tsx lines 259-263). -/
def sendInsertRow (st : AppState) (text : String) (randomValues : Nat → List Nat) :
    InsertRow :=
  { room := normalizedRoom st.room, author := normalizedName st.name,
    content := stringifyEnv (encryptText text st.pass randomValues) }

/-- Second phase of `sendMessage` (page.tsx lines 264-273): the
continuation on the settled INSERT.  On failure the trimmed text is
restored into the compose buffer and the error banner is set; the same
restore runs in the `catch` for an encryption failure. -/
def sendMessageFinish (st : AppState) (text : String)
    (result : Except String Unit) : AppState :=
  match result with
  | .ok _ => st
  | .error e => {st with errMsg := "Errore Supabase INSERT: " ++ e, message := text}

/-- The presence `sync` handler (page.tsx lines 222-225): the online
count becomes the number of distinct presence keys in the channel
state. -/
def onPresenceSync (st : AppState) (presenceKeys : Finset String) : AppState :=
  {st with onlineUsers := presenceKeys.card}

/-- Model of `track` on the presence channel (page.tsx line 241): a client
announces itself under the channel's presence key; clients sharing a
display name share a key. -/
def trackPresence (keys : Finset String) (key : String) : Finset String :=
  insert key keys


/-! ### The claims. -/

/-- C1 witness randomness: a deterministic byte source standing in for
one `crypto.getRandomValues` draw. -/
def rvW : Nat → List Nat := fun n => List.replicate n 7

theorem claim1_roundtrip_witness :
    (∀ b ∈ rvW 12, b < 256) ∧ (∀ b ∈ rvW 16, b < 256) ∧
      decryptTextFromEnvelope (stringifyEnv (encryptText "ciao" "pw" rvW)) "pw" =
        "ciao" :=
  ⟨by decide, by decide,
    decryptTextFromEnvelope_encryptText "ciao" "pw" rvW (by decide) (by decide)⟩

/-- C2: `decryptTextFromEnvelope` is total (a total function here, the
`catch` of the source), and in every failure mode — non-JSON text, a
missing or non-string required field, a version tag other than `"v1"`,
an algorithm tag other than `"AES-GCM"`, or an envelope whose AES-GCM
integrity check fails under the supplied password — it returns the wire
content string unchanged. -/
theorem claim2_decrypt_total_fallback (s pw : String) :
    (∀ r, decryptAttempt s pw = some r → decryptTextFromEnvelope s pw = r) ∧
    (decryptAttempt s pw = none → decryptTextFromEnvelope s pw = s) ∧
    (parseJson s = none → decryptTextFromEnvelope s pw = s) ∧
    (∀ j, parseJson s = some j → jsonStrField j "v" ≠ some "v1" →
      decryptTextFromEnvelope s pw = s) ∧
    (∀ j, parseJson s = some j → jsonStrField j "alg" ≠ some "AES-GCM" →
      decryptTextFromEnvelope s pw = s) ∧
    (∀ j, parseJson s = some j → jsonStrField j "iv" = none →
      decryptTextFromEnvelope s pw = s) ∧
    (∀ j ivS iv, parseJson s = some j →
      jsonStrField j "iv" = some ivS → fromB64 ivS = some iv →
      jsonStrField j "salt" = none → decryptTextFromEnvelope s pw = s) ∧
    (∀ j ivS saltS iv salt, parseJson s = some j →
      jsonStrField j "iv" = some ivS → fromB64 ivS = some iv →
      jsonStrField j "salt" = some saltS → fromB64 saltS = some salt →
      jsonStrField j "ct" = none → decryptTextFromEnvelope s pw = s) ∧
    (∀ j ivS saltS ctS iv salt ct, parseJson s = some j →
      jsonStrField j "iv" = some ivS → fromB64 ivS = some iv →
      jsonStrField j "salt" = some saltS → fromB64 saltS = some salt →
      jsonStrField j "ct" = some ctS → fromB64 ctS = some ct →
      aesGcmDecrypt (deriveKey pw salt) iv ct = none →
      decryptTextFromEnvelope s pw = s) := by
  refine ⟨?_, ?_, ?_, ?_, ?_, ?_, ?_, ?_, ?_⟩
  · intro r h
    rw [decryptTextFromEnvelope, h]
    rfl
  · intro h
    rw [decryptTextFromEnvelope, h]
    rfl
  · intro h
    rw [decryptTextFromEnvelope, decryptAttempt, h]
    rfl
  · intro j hj hv
    rw [decryptTextFromEnvelope, decryptAttempt, hj]
    simp only [Option.some_bind]
    rw [if_neg (fun hc => hv hc.1)]
    rfl
  · intro j hj halg
    rw [decryptTextFromEnvelope, decryptAttempt, hj]
    simp only [Option.some_bind]
    rw [if_neg (fun hc => halg hc.2)]
    rfl
  · intro j hj hiv
    rw [decryptTextFromEnvelope, decryptAttempt, hj]
    simp only [Option.some_bind]
    by_cases hc : jsonStrField j "v" = some "v1" ∧ jsonStrField j "alg" = some "AES-GCM"
    · rw [if_pos hc, hiv]
      rfl
    · rw [if_neg hc]
      rfl
  · intro j ivS iv hj hivS hiv hsalt
    rw [decryptTextFromEnvelope, decryptAttempt, hj]
    simp only [Option.some_bind]
    by_cases hc : jsonStrField j "v" = some "v1" ∧ jsonStrField j "alg" = some "AES-GCM"
    · rw [if_pos hc, hivS]
      simp only [Option.some_bind]
      rw [hiv]
      simp only [Option.some_bind]
      rw [hsalt]
      rfl
    · rw [if_neg hc]
      rfl
  · intro j ivS saltS iv salt hj hivS hiv hsaltS hsalt hct
    rw [decryptTextFromEnvelope, decryptAttempt, hj]
    simp only [Option.some_bind]
    by_cases hc : jsonStrField j "v" = some "v1" ∧ jsonStrField j "alg" = some "AES-GCM"
    · rw [if_pos hc, hivS]
      simp only [Option.some_bind]
      rw [hiv]
      simp only [Option.some_bind]
      rw [hsaltS]
      simp only [Option.some_bind]
      rw [hsalt]
      simp only [Option.some_bind]
      rw [hct]
      rfl
    · rw [if_neg hc]
      rfl
  · intro j ivS saltS ctS iv salt ct hj hivS hiv hsaltS hsalt hctS hct hdec
    rw [decryptTextFromEnvelope, decryptAttempt, hj]
    simp only [Option.some_bind]
    by_cases hc : jsonStrField j "v" = some "v1" ∧ jsonStrField j "alg" = some "AES-GCM"
    · rw [if_pos hc, hivS]
      simp only [Option.some_bind]
      rw [hiv]
      simp only [Option.some_bind]
      rw [hsaltS]
      simp only [Option.some_bind]
      rw [hsalt]
      simp only [Option.some_bind]
      rw [hctS]
      simp only [Option.some_bind]
      rw [hct]
      simp only [Option.some_bind]
      rw [hdec]
      rfl
    · rw [if_neg hc]
      rfl

theorem claim2_witness :
    parseJson "hello" = none ∧ decryptTextFromEnvelope "hello" "pw" = "hello" :=
  ⟨rfl, (claim2_decrypt_total_fallback "hello" "pw").2.2.1 rfl⟩


/-- C3: `joinRoom` issues its backfill SELECT on the `messages` table
filtered to the canonical room, ordered by `created_at` ascending and
capped at 200 rows; when the query succeeds — including with zero rows —
it stores every returned record with its `content` decrypted and only
then marks the session joined; when the query fails it stays not-joined
(from a not-joined start), opens no channels, and surfaces the error
banner. -/
theorem claim3_join_backfill (st : AppState) (q : SelectQuery) (cap : JoinCapture)
    (hjoined : st.joined = false)
    (hq : (joinRoomStart st).2 = some (q, cap)) :
    q = { table := "messages", eqRoom := normalizedRoom st.room,
          orderColumn := "created_at", ascending := true, limit := 200 } ∧
    (∀ rows,
      (joinRoomFinish (joinRoomStart st).1 cap (.ok rows)).1.joined = true ∧
      (joinRoomFinish (joinRoomStart st).1 cap (.ok rows)).1.messages =
        rows.map (fun m =>
          {m with content := decryptTextFromEnvelope m.content cap.pass}) ∧
      (joinRoomFinish (joinRoomStart st).1 cap (.ok rows)).1.errMsg = "") ∧
    (joinRoomFinish (joinRoomStart st).1 cap (.ok [])).1.messages = [] ∧
    (∀ e,
      (joinRoomFinish (joinRoomStart st).1 cap (.error e)).1.joined = false ∧
      (joinRoomFinish (joinRoomStart st).1 cap (.error e)).1.errMsg =
        "Errore Supabase SELECT: " ++ e ∧
      (joinRoomFinish (joinRoomStart st).1 cap (.error e)).2 = []) := by
  have hcond : ¬(normalizedRoom st.room = "" ∨ normalizedName st.name = "" ∨
      st.pass = "") := by
    intro hcond
    rw [joinRoomStart, if_pos hcond] at hq
    simp at hq
  rw [joinRoomStart, if_neg hcond] at hq
  simp only [Option.some.injEq, Prod.mk.injEq] at hq
  refine ⟨hq.1.symm, ?_, ?_, ?_⟩
  · intro rows
    rw [joinRoomStart, if_neg hcond]
    simp [joinRoomFinish]
  · rw [joinRoomStart, if_neg hcond]
    simp [joinRoomFinish]
  · intro e
    rw [joinRoomStart, if_neg hcond]
    simp [joinRoomFinish, hjoined]

/-- Concrete session used by several witnesses: a fresh, not-joined
client with filled-in room, name and password. -/
def stW : AppState :=
  { room := "R", name := "n", pass := "p", joined := false, loading := false,
    message := "", messages := [], onlineUsers := 0, typingUsers := ∅,
    errMsg := "", infoMsg := "", selfTyping := false, typingTimerArmed := false,
    msgChannelOpen := false, presenceChannelOpen := false }

theorem claim3_witness :
    (joinRoomFinish (joinRoomStart stW).1
        { roomKey := "r", nameKey := "n", pass := "p" } (.ok [])).1.joined = true ∧
    (joinRoomFinish (joinRoomStart stW).1
        { roomKey := "r", nameKey := "n", pass := "p" } (.ok [])).1.messages = [] := by
  have h := claim3_join_backfill stW
    { table := "messages", eqRoom := "r", orderColumn := "created_at",
      ascending := true, limit := 200 }
    { roomKey := "r", nameKey := "n", pass := "p" } rfl rfl
  exact ⟨(h.2.1 []).1, h.2.2.1⟩

/-- C4: `normalizedRoom` is lowercase of trim, pure and total (a Lean
function), idempotent, and case/whitespace-insensitive on the spec's
example inputs. -/
theorem claim4_canonical_room :
    (∀ x, normalizedRoom x = jsToLower (jsTrim x)) ∧
    (∀ x, normalizedRoom (normalizedRoom x) = normalizedRoom x) ∧
    normalizedRoom " Room1 " = normalizedRoom "room1" :=
  ⟨fun _ => rfl, normalizedRoom_idem, by decide⟩

/-- C5: `deriveKey` is PBKDF2 with a fixed 120000 ≥ 100000 iterations
of SHA-256 over the supplied per-message salt, yielding a 256-bit
AES-GCM key; `encryptText` draws a fresh 12-byte (96-bit) iv and a
fresh 16-byte (128-bit) salt from the randomness source on every call
and embeds exactly those bytes, so distinct draws yield distinct
envelope `iv` / `salt` fields — the code never reuses a cached value. -/
theorem claim5_derive_and_freshness (password plain : String)
    (randomValues : Nat → List Nat)
    (hlen : ∀ n, (randomValues n).length = n)
    (hb : ∀ n, ∀ b ∈ randomValues n, b < 256) :
    (∀ salt, (deriveKey password salt).iterations = 120000 ∧
      100000 ≤ (deriveKey password salt).iterations ∧
      (deriveKey password salt).hash = "SHA-256" ∧
      (deriveKey password salt).keySalt = salt ∧
      (deriveKey password salt).algName = "AES-GCM" ∧
      (deriveKey password salt).algLength = 256) ∧
    ((encryptText plain password randomValues).iv = toB64 (randomValues 12) ∧
      (randomValues 12).length = 12 ∧
      (encryptText plain password randomValues).salt = toB64 (randomValues 16) ∧
      (randomValues 16).length = 16) ∧
    (∀ (plain2 password2 : String) (rv2 : Nat → List Nat),
      (∀ b ∈ rv2 12, b < 256) → (∀ b ∈ rv2 16, b < 256) →
      (randomValues 12 ≠ rv2 12 →
        (encryptText plain password randomValues).iv ≠
          (encryptText plain2 password2 rv2).iv) ∧
      (randomValues 16 ≠ rv2 16 →
        (encryptText plain password randomValues).salt ≠
          (encryptText plain2 password2 rv2).salt)) := by
  refine ⟨fun salt => ⟨rfl, by norm_num [deriveKey], rfl, rfl, rfl, rfl⟩,
    ⟨rfl, hlen 12, rfl, hlen 16⟩, ?_⟩
  intro plain2 password2 rv2 h12 h16
  constructor
  · intro hne heq
    have h1 := fromB64_toB64 (randomValues 12) (hb 12)
    have h2 := fromB64_toB64 (rv2 12) h12
    have heq2 : toB64 (randomValues 12) = toB64 (rv2 12) := heq
    rw [heq2] at h1
    rw [h2] at h1
    exact hne (Option.some.inj h1).symm
  · intro hne heq
    have h1 := fromB64_toB64 (randomValues 16) (hb 16)
    have h2 := fromB64_toB64 (rv2 16) h16
    have heq2 : toB64 (randomValues 16) = toB64 (rv2 16) := heq
    rw [heq2] at h1
    rw [h2] at h1
    exact hne (Option.some.inj h1).symm

theorem claim5_witness :
    (deriveKey "pw" [1, 2]).iterations = 120000 ∧
      (encryptText "m" "pw" rvW).iv = toB64 (rvW 12) := by
  have h := claim5_derive_and_freshness "pw" "m" rvW
    (fun n => by simp [rvW])
    (fun n b hbm => by
      simp [rvW] at hbm
      omega)
  exact ⟨(h.1 [1, 2]).1, h.2.1.1⟩


/-- A chat session with every join field present but a whitespace-only
compose buffer, and a stale error banner, used to exhibit what
`sendMessage` does on validation failure. -/
def sendValidationSt : AppState :=
  { room := "R", name := "n", pass := "p", joined := true, loading := false,
    message := "   ", messages := [], onlineUsers := 1, typingUsers := ∅,
    errMsg := "old error", infoMsg := "", selfTyping := false,
    typingTimerArmed := false, msgChannelOpen := true, presenceChannelOpen := true }

/-- C6 counterexample: on a whitespace-only message with room, name and
password all present, `sendMessage` makes no network call but also
surfaces nothing — both banners end up empty, so the validation failure
is not shown to the user, contradicting the claim. -/
theorem claim6_counterexample :
    (sendMessageStart sendValidationSt).2 = none ∧
    (sendMessageStart sendValidationSt).1.errMsg = "" ∧
    (sendMessageStart sendValidationSt).1.infoMsg = "" :=
  ⟨rfl, rfl, rfl⟩

/-- C6 (amended): when the trimmed message is empty or the canonical
room, display name, or password is missing, `sendMessage` rejects
locally without any network call, and nothing is surfaced: the error
and info banners are cleared and the rest of the state is untouched. -/
theorem claim6_send_validation (st : AppState)
    (h : jsTrim st.message = "" ∨ normalizedRoom st.room = "" ∨
      normalizedName st.name = "" ∨ st.pass = "") :
    (sendMessageStart st).2 = none ∧
    (sendMessageStart st).1 = {st with errMsg := "", infoMsg := ""} := by
  rw [sendMessageStart, if_pos h]
  exact ⟨rfl, rfl⟩

theorem claim6_witness :
    (sendMessageStart sendValidationSt).2 = none ∧
    (sendMessageStart sendValidationSt).1 =
      {sendValidationSt with errMsg := "", infoMsg := ""} :=
  claim6_send_validation sendValidationSt (Or.inl rfl)

lemma sendTyping_fst_message (st : AppState) (b : Bool) :
    (sendTyping st b).1.message = st.message := by
  rw [sendTyping]
  by_cases h : st.selfTyping = b
  · rw [if_pos h]
  · rw [if_neg h]

/-- C7: when the remote insert of a send fails, the trimmed text that
was being sent is restored into the compose buffer (which the start
phase had cleared) and the error banner is set to a non-empty
message. -/
theorem claim7_send_failure_restores (st : AppState) (e : String)
    (h : ¬(jsTrim st.message = "" ∨ normalizedRoom st.room = "" ∨
      normalizedName st.name = "" ∨ st.pass = "")) :
    (sendMessageStart st).2 = some (jsTrim st.message) ∧
    (sendMessageStart st).1.message = "" ∧
    (sendMessageFinish (sendMessageStart st).1 (jsTrim st.message)
        (.error e)).message = jsTrim st.message ∧
    (sendMessageFinish (sendMessageStart st).1 (jsTrim st.message)
        (.error e)).errMsg = "Errore Supabase INSERT: " ++ e ∧
    "Errore Supabase INSERT: " ++ e ≠ "" := by
  rw [sendMessageStart, if_neg h]
  refine ⟨rfl, ?_, rfl, rfl, ?_⟩
  · rw [sendTyping_fst_message]
  · intro h0
    have hlen := congrArg String.length h0
    rw [String.length_append] at hlen
    have h24 : ("Errore Supabase INSERT: " : String).length = 24 := rfl
    have h0' : ("" : String).length = 0 := rfl
    omega

theorem claim7_witness :
    (sendMessageFinish (sendMessageStart {stW with message := " hi "}).1
        (jsTrim " hi ") (.error "boom")).message = jsTrim " hi " ∧
    (sendMessageFinish (sendMessageStart {stW with message := " hi "}).1
        (jsTrim " hi ") (.error "boom")).errMsg =
      "Errore Supabase INSERT: " ++ "boom" := by
  have h := claim7_send_failure_restores {stW with message := " hi "} "boom"
    (by decide)
  exact ⟨h.2.2.1, h.2.2.2.1⟩

lemma update_armed_self (st : AppState) (h : st.typingTimerArmed = true) :
    {st with typingTimerArmed := true} = st := by
  cases st
  simp only at h
  simp only [h]

lemma handleTypingActivity_stable (st : AppState) (h1 : st.selfTyping = true)
    (h2 : st.typingTimerArmed = true) : handleTypingActivity st = (st, none) := by
  rw [handleTypingActivity, sendTyping, if_pos h1]
  rw [show ((st, (none : Option TypingBroadcast)).1) = st from rfl]
  rw [update_armed_self st h2]

lemma runActivityBurst_stable (n : Nat) (st : AppState) (h1 : st.selfTyping = true)
    (h2 : st.typingTimerArmed = true) : runActivityBurst n st = (st, []) := by
  induction n with
  | zero => rfl
  | succ m ih =>
      rw [runActivityBurst, handleTypingActivity_stable st h1 h2]
      rw [show ((st, (none : Option TypingBroadcast)).1) = st from rfl, ih]
      rfl

/-- C8: typing signalling is edge-triggered and debounced: `sendTyping`
transmits only when the requested flag differs from the previous
self-reported flag, and a burst of `n ≥ 1` activity calls with no timer
expiry in between produces exactly one `typing = true` transmission,
after which the expiry of the `typingDebounceMs` (1500 ms) timer
produces exactly one `typing = false` transmission. -/
theorem claim8_typing_debounce (st : AppState) (n : Nat)
    (hself : st.selfTyping = false) (hch : st.presenceChannelOpen = true)
    (hn : 1 ≤ n) :
    (∀ (st' : AppState) (t : Bool), st'.selfTyping = t →
      (sendTyping st' t).2 = none) ∧
    (runActivityBurst n st).2 =
      [{ name := normalizedName st.name, typing := true }] ∧
    (typingTimerFire (runActivityBurst n st).1).2 =
      some { name := normalizedName st.name, typing := false } ∧
    typingDebounceMs = 1500 := by
  obtain ⟨m, rfl⟩ : ∃ m, n = m + 1 := ⟨n - 1, by omega⟩
  have hact : handleTypingActivity st =
      ({st with selfTyping := true, typingTimerArmed := true},
        some { name := normalizedName st.name, typing := true }) := by
    simp [handleTypingActivity, sendTyping, hself, hch]
  have hstable := runActivityBurst_stable m
    {st with selfTyping := true, typingTimerArmed := true} (by simp) (by simp)
  refine ⟨?_, ?_, ?_, rfl⟩
  · intro st' t h
    rw [sendTyping, if_pos h]
  · rw [runActivityBurst, hact]
    simp only
    rw [hstable]
    rfl
  · rw [runActivityBurst, hact]
    simp only
    rw [hstable]
    simp only
    simp [typingTimerFire, sendTyping, hch]

/-- A fresh session with the presence channel up, for the typing
witness. -/
def stWPresence : AppState := {stW with presenceChannelOpen := true}

theorem claim8_witness :
    stWPresence.selfTyping = false ∧
    (runActivityBurst 3 stWPresence).2 =
      [{ name := normalizedName stWPresence.name, typing := true }] ∧
    (typingTimerFire (runActivityBurst 3 stWPresence).1).2 =
      some { name := normalizedName stWPresence.name, typing := false } := by
  have h := claim8_typing_debounce stWPresence 3 rfl rfl (by omega)
  exact ⟨rfl, h.2.1, h.2.2.1⟩

/-- C9 (exhibiting the code's behaviour): start a join from a fresh
session, leave while the backfill is pending, then let the backfill
resolve with one row; the continuation still marks the session joined
and installs the stale row — `joinRoom` has no cancellation guard, so a
late-arriving backfill overwrites the newer (left) session state. -/
theorem claim9_stale_backfill_applied :
    (joinRoomFinish (leaveRoom (joinRoomStart stW).1)
        { roomKey := "r", nameKey := "n", pass := "p" }
        (.ok [{ id := "1", room := "r", author := "a", content := "x",
                created_at := "t" }])).1.joined = true ∧
    (leaveRoom (joinRoomStart stW).1).joined = false ∧
    (joinRoomFinish (leaveRoom (joinRoomStart stW).1)
        { roomKey := "r", nameKey := "n", pass := "p" }
        (.ok [{ id := "1", room := "r", author := "a", content := "x",
                created_at := "t" }])).1.messages ≠ [] := by
  refine ⟨rfl, rfl, ?_⟩
  decide

/-- C10: every presence sync sets the online count to the number of
distinct presence keys on the room's presence channel; the channel a
successful join opens is keyed by the captured canonical display name;
and tracking twice under one display name adds one key, so two
participants with the same name are counted as one occupant. -/
theorem claim10_presence_distinct_keys (st : AppState) (keys : Finset String)
    (q : SelectQuery) (cap : JoinCapture)
    (hq : (joinRoomStart st).2 = some (q, cap)) :
    (onPresenceSync st keys).onlineUsers = keys.card ∧
    cap.nameKey = normalizedName st.name ∧
    (∀ (st2 : AppState) (rows : List Message),
      (joinRoomFinish st2 cap (.ok rows)).2 =
        [ChannelOpen.messagesChannel ("room:" ++ cap.roomKey) cap.roomKey,
         ChannelOpen.presenceChannel ("presence:" ++ cap.roomKey) cap.nameKey]) ∧
    (∀ nm, trackPresence (trackPresence keys nm) nm = trackPresence keys nm) ∧
    (∀ nm, (onPresenceSync st (trackPresence (trackPresence ∅ nm) nm)).onlineUsers
      = 1) := by
  have hcond : ¬(normalizedRoom st.room = "" ∨ normalizedName st.name = "" ∨
      st.pass = "") := by
    intro hcond
    rw [joinRoomStart, if_pos hcond] at hq
    simp at hq
  rw [joinRoomStart, if_neg hcond] at hq
  simp only [Option.some.injEq, Prod.mk.injEq] at hq
  refine ⟨rfl, ?_, fun st2 rows => rfl, fun nm => Finset.insert_idem nm keys, ?_⟩
  · rw [← hq.2]
  · intro nm
    simp [onPresenceSync, trackPresence]

theorem claim10_witness :
    (onPresenceSync stW ({"a", "b"} : Finset String)).onlineUsers = 2 ∧
    (onPresenceSync stW
      (trackPresence (trackPresence ∅ "amy") "amy")).onlineUsers = 1 := by
  have h := claim10_presence_distinct_keys stW ({"a", "b"} : Finset String)
    { table := "messages", eqRoom := "r", orderColumn := "created_at",
      ascending := true, limit := 200 }
    { roomKey := "r", nameKey := "n", pass := "p" } rfl
  exact ⟨by rw [h.1]; decide, h.2.2.2.2 "amy"⟩

end ChatAnonima
